import Mathlib

/-!
Verification of the sam-flights client-side flight-booking application.

The definitions below are a shallow embedding of the core application
logic: the flight-offer filter/sort engine and the price histogram
(src/pages/FlightResults.tsx), duration parsing, the currency converter
(src/context/CurrencyContext.tsx), and the booking lifecycle
(src/pages/booking/Booking.tsx, src/api/firestoreBooking.ts,
src/api/paystack.ts, src/pages/booking/BookingConfirmation.tsx).

Conventions used throughout:
- JavaScript numbers are modelled as exact rationals (`ℚ`); integer
  quantities (durations in minutes, timestamps, counts) as `Nat`/`Int`.
- A price string together with the `parseFloat` applied to it is modelled
  by the rational field `priceTotal`.
- `Array.prototype.sort`, which the ECMAScript specification requires to be
  stable, is modelled by a stable insertion sort by key (`sortByKey`).
- Timestamps (`Date.now()`, `Timestamp.now()`, `new Date(...)`) are `Nat`
  instants passed explicitly.
-/

namespace SamFlights

/-! ### Flight-offer data model (src/api/amadeus.ts types) -/

/-- One non-stop segment of a leg. Only the fields the verified logic
touches are kept. -/
structure Segment where
  carrierCode : String
  number : String
  duration : String
deriving DecidableEq, Repr, Inhabited

/-- One direction of travel: a total duration string and an ordered list of
segments. -/
structure Itinerary where
  duration : String
  segments : List Segment
deriving DecidableEq, Repr, Inhabited

/-- A priced flight offer as returned by the search provider.  `priceTotal`
is the rational value that `parseFloat(flight.price.total)` yields. -/
structure FlightOffer where
  id : String
  priceTotal : ℚ
  priceCurrency : String
  itineraries : List Itinerary
  validatingAirlineCodes : List String
deriving DecidableEq, Repr, Inhabited

/-- Stop count of an offer, from FlightResults.tsx `getNumberOfStops`:
`flight.itineraries[0].segments.length - 1`. -/
def getNumberOfStops (f : FlightOffer) : ℤ :=
  (f.itineraries.headI.segments.length : ℤ) - 1

/-! ### Duration parsing (FlightResults.tsx `parseDuration`)

The source matches the regex `PT(\d+H)?(\d+M)?` against the duration string
and reads `parseInt` of each captured group (a digit run plus its trailing
unit letter, which `parseInt` ignores).  The regex succeeds at the earliest
occurrence of the literal `PT`; each optional group matches a maximal digit
run only when it is immediately followed by the unit letter. -/

/-- Locate the earliest occurrence of the literal `PT` and return the
characters after it, as the regex engine does for `PT(\d+H)?(\d+M)?`. -/
def findPT : List Char → Option (List Char)
  | [] => none
  | [_] => none
  | a :: b :: rest => if a = 'P' ∧ b = 'T' then some rest else findPT (b :: rest)

/-- Numeric value of a digit run, as `parseInt` computes on the captured
group (the trailing unit letter is ignored by `parseInt`). -/
def digitsToNat (cs : List Char) : Nat :=
  cs.foldl (fun n c => n * 10 + (c.toNat - 48)) 0

/-- Match one optional group `(\d+X)?` for unit letter `X`: a nonempty
digit run immediately followed by the unit letter.  Returns the parsed
value (0 when the group does not match) and the remaining characters. -/
def matchNumGroup (unit : Char) (cs : List Char) : Nat × List Char :=
  let ds := cs.takeWhile Char.isDigit
  let rest := cs.drop ds.length
  if ds ≠ [] ∧ rest.head? = some unit then (digitsToNat ds, rest.tail) else (0, cs)

/-- FlightResults.tsx `parseDuration`: hour and minute components reduced
to a single minute count; a failed match yields 0. -/
def parseDuration (s : String) : Nat :=
  match findPT s.data with
  | none => 0
  | some rest =>
    let hg := matchNumGroup 'H' rest
    let mg := matchNumGroup 'M' hg.2
    hg.1 * 60 + mg.1

/-! ### Filter pipeline (FlightResults.tsx `filteredFlights`) -/

/-- Price ceiling filter: when a ceiling is set, keep offers with
`parseFloat(flight.price.total) <= maxPrice`. -/
def applyPriceFilter (maxPrice : Option ℚ) (l : List FlightOffer) : List FlightOffer :=
  match maxPrice with
  | none => l
  | some p => l.filter (fun f => decide (f.priceTotal ≤ p))

/-- Stop-count filter: when `selectedStops` is nonempty, keep offers whose
outbound stop count is included in it. -/
def applyStopsFilter (selectedStops : List ℤ) (l : List FlightOffer) : List FlightOffer :=
  if selectedStops = [] then l
  else l.filter (fun f => decide (getNumberOfStops f ∈ selectedStops))

/-- Airline filter: when `selectedAirlines` is nonempty, keep offers with
some validating-airline code included in it. -/
def applyAirlinesFilter (selectedAirlines : List String) (l : List FlightOffer) : List FlightOffer :=
  if selectedAirlines = [] then l
  else l.filter (fun f => f.validatingAirlineCodes.any (fun c => decide (c ∈ selectedAirlines)))

/-- Stable insertion of `a` into `l`: `a` goes before the first element
whose key is not smaller.  Models one step of a stable sort. -/
def insertSorted {α β : Type} [LinearOrder β] (key : α → β) (a : α) : List α → List α
  | [] => [a]
  | b :: l => if key a ≤ key b then a :: b :: l else b :: insertSorted key a l

/-- Stable sort by key.  Models `Array.prototype.sort` with the comparator
`(a, b) => key(a) - key(b)`, which the ECMAScript specification requires to
be a stable sort. -/
def sortByKey {α β : Type} [LinearOrder β] (key : α → β) : List α → List α
  | [] => []
  | a :: l => insertSorted key a (sortByKey key l)

/-- The two sort keys offered by the results page. -/
inductive SortKey
  | price
  | duration
deriving DecidableEq, Repr

/-- Sort key for `sortBy === "price"`: the numeric total price. -/
def priceKey (f : FlightOffer) : ℚ := f.priceTotal

/-- Sort key for `sortBy === "duration"`: the parsed minute count of the
outbound leg duration string. -/
def durationKey (f : FlightOffer) : Nat := parseDuration f.itineraries.headI.duration

/-- The sort step of `filteredFlights`. -/
def sortFlights : SortKey → List FlightOffer → List FlightOffer
  | SortKey.price, l => sortByKey priceKey l
  | SortKey.duration, l => sortByKey durationKey l

/-- User-owned filter state of the results view. -/
structure FilterState where
  maxPrice : Option ℚ
  selectedStops : List ℤ
  selectedAirlines : List String
  sortKey : SortKey
deriving Repr

/-- The full `filteredFlights` pipeline: price filter, stop filter,
airline filter, then sort. -/
def filteredFlights (fs : FilterState) (l : List FlightOffer) : List FlightOffer :=
  sortFlights fs.sortKey
    (applyAirlinesFilter fs.selectedAirlines
      (applyStopsFilter fs.selectedStops
        (applyPriceFilter fs.maxPrice l)))

/-! ### Price-distribution histogram (FlightResults.tsx `priceGraphData`) -/

/-- JavaScript `Math.round`: round half toward positive infinity. -/
def jsRound (q : ℚ) : ℤ := ⌊q + 1 / 2⌋

/-- Minimum offer price, `Math.min(...prices)`; 0 on the empty list, which
the caller short-circuits away. -/
def minPriceOf : List FlightOffer → ℚ
  | [] => 0
  | f :: fs => fs.foldl (fun m g => min m g.priceTotal) f.priceTotal

/-- Maximum offer price, `Math.max(...prices)`; 0 on the empty list, which
the caller short-circuits away. -/
def maxPriceOf : List FlightOffer → ℚ
  | [] => 0
  | f :: fs => fs.foldl (fun m g => max m g.priceTotal) f.priceTotal

/-- Bucket width `rangeSize = (maxPriceValue - minPrice) / 10`. -/
def rangeSizeOf (l : List FlightOffer) : ℚ := (maxPriceOf l - minPriceOf l) / 10

/-- Bucket index `Math.floor((price - minPrice) / rangeSize)` of an offer.
When all prices coincide, `rangeSize` is 0 and the rational quotient is 0,
so the index is 0 (a single bucket, as in the source where the lone NaN key
also yields a single bucket). -/
def bucketIndexOf (l : List FlightOffer) (f : FlightOffer) : ℤ :=
  ⌊(f.priceTotal - minPriceOf l) / rangeSizeOf l⌋

/-- Bucket label `formatPrice(Math.round(minPrice + rangeIndex * rangeSize),
currency)`.  The formatting function (composed with the fixed currency) is
the abstract parameter `fmt`. -/
def bucketLabelOf (fmt : ℤ → String) (l : List FlightOffer) (f : FlightOffer) : String :=
  fmt (jsRound (minPriceOf l + (bucketIndexOf l f : ℚ) * rangeSizeOf l))

/-- One step of building the `priceRanges` object:
`priceRanges[label] = (priceRanges[label] || 0) + 1`, with the insertion
order of the string keys of a JavaScript object preserved. -/
def upsertCount (s : String) : List (String × Nat) → List (String × Nat)
  | [] => [(s, 1)]
  | (k, n) :: rest => if k = s then (k, n + 1) :: rest else (k, n) :: upsertCount s rest

/-- The `priceRanges` accumulation over the offer list. -/
def priceRangesOf (fmt : ℤ → String) (l : List FlightOffer) : List (String × Nat) :=
  l.foldl (fun acc f => upsertCount (bucketLabelOf fmt l f) acc) []

/-- JavaScript `parseInt(label.replace(/[^0-9]/g, ""))`: the digits of the
label read as one number (labels produced by the formatter always contain a
digit). -/
def digitsVal (s : String) : Nat :=
  (s.data.filter Char.isDigit).foldl (fun n c => n * 10 + (c.toNat - 48)) 0

/-- One point of the final graph data. -/
structure GraphPoint where
  range : String
  count : Nat
  price : Nat
deriving DecidableEq, Repr

/-- FlightResults.tsx `priceGraphData`: empty on zero offers, otherwise the
bucket counts keyed by label, mapped to points and sorted ascending by the
numeric content of the label. -/
def priceGraphData (fmt : ℤ → String) (l : List FlightOffer) : List GraphPoint :=
  if l.length = 0 then []
  else
    sortByKey GraphPoint.price
      ((priceRangesOf fmt l).map (fun p => { range := p.1, count := p.2, price := digitsVal p.1 }))

/-- Auxiliary for stating count correctness: the total count stored under a
given key of a `priceRanges` association list. -/
def getCount (s : String) (xs : List (String × Nat)) : Nat :=
  ((xs.filter (fun p => decide (p.1 = s))).map Prod.snd).sum

/-- Auxiliary: the keys of a `priceRanges` association list. -/
def keysOf (xs : List (String × Nat)) : List String := xs.map Prod.fst

/-! ### Currency converter (src/context/CurrencyContext.tsx) -/

/-- The embedded fallback rate table (USD-relative) used when the rate
fetch fails. -/
def fallbackRates (c : String) : Option ℚ :=
  if c = "USD" then some 1
  else if c = "EUR" then some (92 / 100)
  else if c = "GBP" then some (79 / 100)
  else if c = "ZAR" then some (185 / 10)
  else if c = "NGN" then some 1580
  else if c = "KES" then some 129
  else if c = "JPY" then some 149
  else if c = "CAD" then some (136 / 100)
  else if c = "AUD" then some (152 / 100)
  else none

/-- CurrencyContext.tsx `convertPrice`: the guard
`!exchangeRates[fromCurrency] || !exchangeRates[selectedCurrency.code]`
is JavaScript truthiness, so a missing rate and a rate equal to 0 both
cause the input to be returned unchanged; otherwise the amount is
normalized through the base currency: `price / rate[from] * rate[sel]`. -/
def convertPrice (rates : String → Option ℚ) (selected : String) (price : ℚ)
    (fromCurrency : String) : ℚ :=
  match rates fromCurrency, rates selected with
  | some rf, some rs => if rf = 0 ∨ rs = 0 then price else price / rf * rs
  | some _, none => price
  | none, _ => price

/-! ### Booking lifecycle (src/api/firestoreBooking.ts and pages) -/

/-- Payment status of a booking record. -/
inductive PaymentStatus
  | pending
  | completed
  | failed
deriving DecidableEq, Repr

/-- Booking status of a booking record. -/
inductive BookingStatus
  | pending
  | confirmed
  | cancelled
deriving DecidableEq, Repr

/-- Passenger category. -/
inductive PassengerType
  | adult
  | child
  | infant
deriving DecidableEq, Repr

/-- A passenger entry of a booking. -/
structure Passenger where
  type : PassengerType
  firstName : String
  lastName : String
  dateOfBirth : String
  passportNumber : String
  nationality : String
deriving DecidableEq, Repr

/-- The blank passenger form pushed for each count in Booking.tsx. -/
def emptyPassenger (t : PassengerType) : Passenger :=
  { type := t, firstName := "", lastName := "", dateOfBirth := "",
    passportNumber := "", nationality := "" }

/-- Booking.tsx passenger-form initialization: one blank adult entry per
adult, then one per child, then one per infant, in that order. -/
def initialPassengers (adults children infants : Nat) : List Passenger :=
  List.replicate adults (emptyPassenger PassengerType.adult) ++
    List.replicate children (emptyPassenger PassengerType.child) ++
      List.replicate infants (emptyPassenger PassengerType.infant)

/-- The booking record fields the verified lifecycle logic touches.
`departureDate`, `createdAt` and `updatedAt` are timestamps. -/
structure BookingRec where
  status : BookingStatus
  paymentStatus : PaymentStatus
  paymentReference : Option String
  passengers : List Passenger
  departureDate : Nat
  createdAt : Nat
  updatedAt : Nat
deriving DecidableEq, Repr

/-- firestoreBooking.ts `createBooking` as called from Booking.tsx
`handlePayment`: the new record carries `status: "pending"`,
`paymentStatus: "pending"`, no payment reference, and fresh timestamps. -/
def createBookingRec (passengers : List Passenger) (departureDate now : Nat) : BookingRec :=
  { status := BookingStatus.pending
    paymentStatus := PaymentStatus.pending
    paymentReference := none
    passengers := passengers
    departureDate := departureDate
    createdAt := now
    updatedAt := now }

/-- The payment statuses `updateBookingPayment` accepts (its TypeScript
parameter type is `"completed" | "failed"`). -/
inductive PaymentUpdate
  | completed
  | failed
deriving DecidableEq, Repr

/-- Injection of the update argument into the stored payment status. -/
def PaymentUpdate.toStatus : PaymentUpdate → PaymentStatus
  | PaymentUpdate.completed => PaymentStatus.completed
  | PaymentUpdate.failed => PaymentStatus.failed

/-- firestoreBooking.ts `updateBookingPayment`: writes the payment status
and reference, sets `status` to `"confirmed"` exactly when the payment
status is `"completed"` and to `"pending"` otherwise, and re-stamps
`updatedAt`. -/
def updateBookingPayment (b : BookingRec) (p : PaymentUpdate) (ref : String)
    (now : Nat) : BookingRec :=
  { b with
    paymentStatus := p.toStatus
    paymentReference := some ref
    status := if p = PaymentUpdate.completed then BookingStatus.confirmed
              else BookingStatus.pending
    updatedAt := now }

/-- firestoreBooking.ts `cancelBooking`: sets `status: "cancelled"` and
re-stamps `updatedAt`. -/
def cancelBooking (b : BookingRec) (now : Nat) : BookingRec :=
  { b with status := BookingStatus.cancelled, updatedAt := now }

/-- BookingConfirmation.tsx: `new Date(booking.departureDate) < new Date()`. -/
def isPastFlight (b : BookingRec) (now : Nat) : Bool := decide (b.departureDate < now)

/-- BookingConfirmation.tsx guard showing the cancel action:
`booking.status === "confirmed" && !isPastFlight`. -/
def canCancel (b : BookingRec) (now : Nat) : Bool :=
  decide (b.status = BookingStatus.confirmed) && !(isPastFlight b now)

/-- Modelled from the spec words for comparison with `canCancel`: cancel is
permitted only when the status is confirmed and the departure date is in
the future, read as strictly later than the current time. -/
def canCancelSpec (b : BookingRec) (now : Nat) : Bool :=
  decide (b.status = BookingStatus.confirmed) && decide (now < b.departureDate)

/-- The guarded cancel operation as the UI exposes it: when the guard
holds the record is cancelled, otherwise nothing happens. -/
def tryCancel (b : BookingRec) (now : Nat) : BookingRec :=
  if canCancel b now then cancelBooking b now else b

/-! ### Payment flow (Booking.tsx `handlePayment`, src/api/paystack.ts) -/

/-- Outcome of the payment widget: the Paystack `callback` delivering a
response with a status string, or the user closing the widget, which the
wrapper turns into a rejection with the error `"Payment cancelled"`. -/
inductive PaymentOutcome
  | callbackResponse (status : String)
  | widgetClosed
deriving DecidableEq, Repr

/-- Booking.tsx: `` `PAY-${Date.now()}-${bookingId}` ``. -/
def paymentReferenceFor (now : Nat) (bookingId : String) : String :=
  "PAY-" ++ toString now ++ "-" ++ bookingId

/-- Result of one run of `handlePayment`: the booking record as persisted
after the run, and the error message shown, if any. -/
structure FlowResult where
  booking : BookingRec
  error : Option String
deriving DecidableEq, Repr

/-- Booking.tsx `handlePayment` after validation passes: create the
pending/pending record, hand off to the payment widget, and reconcile.  A
closed widget rejects with `"Payment cancelled"`, which the surrounding
`catch` surfaces as the error message without touching the record; a
callback response updates the record only when its status is
`"success"`. -/
def handlePayment (passengers : List Passenger) (departureDate now : Nat)
    (bookingId : String) (outcome : PaymentOutcome) : FlowResult :=
  let b := createBookingRec passengers departureDate now
  match outcome with
  | PaymentOutcome.widgetClosed => { booking := b, error := some ("Payment cancelled") }
  | PaymentOutcome.callbackResponse s =>
    if s = "success" then
      { booking := updateBookingPayment b PaymentUpdate.completed
          (paymentReferenceFor now bookingId) now
        error := none }
    else { booking := b, error := none }

/-! ### Concrete sample values used by witnesses and counterexamples -/

/-- A two-segment sample itinerary. -/
def itinTwoSeg : Itinerary :=
  { duration := "PT5H30M"
    segments :=
      [ { carrierCode := "AA", number := "100", duration := "PT2H" }
      , { carrierCode := "AA", number := "200", duration := "PT3H" } ] }

/-- A sample offer whose outbound leg has two segments (one stop). -/
def offerA : FlightOffer :=
  { id := "offer-a", priceTotal := 100, priceCurrency := "USD"
    itineraries := [itinTwoSeg], validatingAirlineCodes := ["AA"] }

/-- A sample offer priced 0, for the histogram counterexample. -/
def offerLow : FlightOffer :=
  { id := "offer-low", priceTotal := 0, priceCurrency := "USD"
    itineraries := [itinTwoSeg], validatingAirlineCodes := ["AA"] }

/-- A sample offer priced 10, for the histogram counterexample. -/
def offerHigh : FlightOffer :=
  { id := "offer-high", priceTotal := 10, priceCurrency := "USD"
    itineraries := [itinTwoSeg], validatingAirlineCodes := ["BB"] }

/-- A concrete injective label formatter for histogram witnesses. -/
def fmtDec (z : ℤ) : String := toString z

/-- A confirmed booking departing at instant 100, for the cancel-guard
counterexample. -/
def bookingAtBoundary : BookingRec :=
  { status := BookingStatus.confirmed, paymentStatus := PaymentStatus.completed
    paymentReference := none, passengers := [], departureDate := 100
    createdAt := 0, updatedAt := 0 }

/-- A confirmed booking departing at instant 10, for the cancel-guard
witness. -/
def bookingFuture : BookingRec :=
  { status := BookingStatus.confirmed, paymentStatus := PaymentStatus.completed
    paymentReference := none, passengers := [], departureDate := 10
    createdAt := 0, updatedAt := 0 }

/-- A rate table holding a present-but-zero rate, for the conversion
counterexample. -/
def zeroRateTable (c : String) : Option ℚ :=
  if c = "AAA" then some 0 else if c = "USD" then some 1 else none

/-! ### Helper lemmas about the stable sort -/

theorem insertSorted_perm {α β : Type} [LinearOrder β] (key : α → β) (a : α) (l : List α) :
    (insertSorted key a l).Perm (a :: l) := by
  induction l with
  | nil => exact List.Perm.refl _
  | cons b t ih =>
    rw [insertSorted]
    by_cases hab : key a ≤ key b
    · rw [if_pos hab]
    · rw [if_neg hab]
      exact (ih.cons b).trans (List.Perm.swap a b t)

theorem sortByKey_perm {α β : Type} [LinearOrder β] (key : α → β) (l : List α) :
    (sortByKey key l).Perm l := by
  induction l with
  | nil => exact List.Perm.refl _
  | cons a t ih => exact (insertSorted_perm key a (sortByKey key t)).trans (ih.cons a)

theorem insertSorted_pairwise {α β : Type} [LinearOrder β] (key : α → β) (a : α) (l : List α)
    (h : l.Pairwise (fun x y => key x ≤ key y)) :
    (insertSorted key a l).Pairwise (fun x y => key x ≤ key y) := by
  induction l with
  | nil => simp [insertSorted]
  | cons b t ih =>
    rw [List.pairwise_cons] at h
    rw [insertSorted]
    by_cases hab : key a ≤ key b
    · rw [if_pos hab]
      refine List.pairwise_cons.mpr ⟨?_, List.pairwise_cons.mpr h⟩
      intro x hx
      rcases List.mem_cons.mp hx with rfl | hx2
      · exact hab
      · exact le_trans hab (h.1 x hx2)
    · rw [if_neg hab]
      refine List.pairwise_cons.mpr ⟨?_, ih h.2⟩
      intro x hx
      have hx2 : x ∈ a :: t := (insertSorted_perm key a t).subset hx
      rcases List.mem_cons.mp hx2 with rfl | hx3
      · exact le_of_not_le hab
      · exact h.1 x hx3

theorem sortByKey_pairwise {α β : Type} [LinearOrder β] (key : α → β) (l : List α) :
    (sortByKey key l).Pairwise (fun x y => key x ≤ key y) := by
  induction l with
  | nil => simp [sortByKey]
  | cons a t ih => exact insertSorted_pairwise key a (sortByKey key t) ih

theorem insertSorted_filter_key {α β : Type} [LinearOrder β] (key : α → β) (a : α)
    (l : List α) (v : β) :
    (insertSorted key a l).filter (fun x => decide (key x = v)) =
      if key a = v then a :: l.filter (fun x => decide (key x = v))
      else l.filter (fun x => decide (key x = v)) := by
  induction l with
  | nil =>
    by_cases hav : key a = v
    · simp [insertSorted, List.filter, hav]
    · simp [insertSorted, List.filter, hav]
  | cons b t ih =>
    rw [insertSorted]
    by_cases hab : key a ≤ key b
    · rw [if_pos hab]
      by_cases hav : key a = v
      · simp [List.filter_cons, hav]
      · simp [List.filter_cons, hav]
    · rw [if_neg hab]
      by_cases hbv : key b = v
      · have hav : ¬ key a = v := fun hav => hab (le_of_eq (hav.trans hbv.symm))
        simp [List.filter_cons, hbv, hav, ih]
      · simp [List.filter_cons, hbv, ih]

theorem sortByKey_filter_key {α β : Type} [LinearOrder β] (key : α → β) (l : List α) (v : β) :
    (sortByKey key l).filter (fun x => decide (key x = v)) =
      l.filter (fun x => decide (key x = v)) := by
  induction l with
  | nil => rfl
  | cons a t ih =>
    rw [sortByKey, insertSorted_filter_key, List.filter_cons]
    by_cases hav : key a = v
    · simp [hav, ih]
    · simp [hav, ih]

/-! ### Helper lemmas about the price minimum and maximum -/

theorem foldl_min_le_acc (l : List FlightOffer) (acc : ℚ) :
    l.foldl (fun m g => min m g.priceTotal) acc ≤ acc := by
  induction l generalizing acc with
  | nil => exact le_refl acc
  | cons g t ih =>
    rw [List.foldl_cons]
    exact le_trans (ih (min acc g.priceTotal)) (min_le_left _ _)

theorem foldl_min_le_mem (l : List FlightOffer) (acc : ℚ) (f : FlightOffer) (hf : f ∈ l) :
    l.foldl (fun m g => min m g.priceTotal) acc ≤ f.priceTotal := by
  induction l generalizing acc with
  | nil => cases hf
  | cons g t ih =>
    rw [List.foldl_cons]
    rcases List.mem_cons.mp hf with rfl | hf2
    · exact le_trans (foldl_min_le_acc t _) (min_le_right _ _)
    · exact ih _ hf2

theorem minPriceOf_le (l : List FlightOffer) (f : FlightOffer) (hf : f ∈ l) :
    minPriceOf l ≤ f.priceTotal := by
  cases l with
  | nil => cases hf
  | cons g t =>
    rcases List.mem_cons.mp hf with rfl | hf2
    · exact foldl_min_le_acc t _
    · exact foldl_min_le_mem t _ f hf2

theorem acc_le_foldl_max (l : List FlightOffer) (acc : ℚ) :
    acc ≤ l.foldl (fun m g => max m g.priceTotal) acc := by
  induction l generalizing acc with
  | nil => exact le_refl acc
  | cons g t ih =>
    rw [List.foldl_cons]
    exact le_trans (le_max_left _ _) (ih (max acc g.priceTotal))

theorem mem_le_foldl_max (l : List FlightOffer) (acc : ℚ) (f : FlightOffer) (hf : f ∈ l) :
    f.priceTotal ≤ l.foldl (fun m g => max m g.priceTotal) acc := by
  induction l generalizing acc with
  | nil => cases hf
  | cons g t ih =>
    rw [List.foldl_cons]
    rcases List.mem_cons.mp hf with rfl | hf2
    · exact le_trans (le_max_right _ _) (acc_le_foldl_max t _)
    · exact ih _ hf2

theorem le_maxPriceOf (l : List FlightOffer) (f : FlightOffer) (hf : f ∈ l) :
    f.priceTotal ≤ maxPriceOf l := by
  cases l with
  | nil => cases hf
  | cons g t =>
    rcases List.mem_cons.mp hf with rfl | hf2
    · exact acc_le_foldl_max t _
    · exact mem_le_foldl_max t _ f hf2

theorem bucketIndexOf_bounds (l : List FlightOffer) (f : FlightOffer) (hf : f ∈ l) :
    0 ≤ bucketIndexOf l f ∧ bucketIndexOf l f ≤ 10 := by
  have hmin : minPriceOf l ≤ f.priceTotal := minPriceOf_le l f hf
  have hmax : f.priceTotal ≤ maxPriceOf l := le_maxPriceOf l f hf
  by_cases heq : maxPriceOf l = minPriceOf l
  · have hp : f.priceTotal = minPriceOf l := le_antisymm (heq ▸ hmax) hmin
    rw [bucketIndexOf, rangeSizeOf, hp, heq]
    norm_num
  · have hlt : minPriceOf l < maxPriceOf l :=
      lt_of_le_of_ne (le_trans hmin hmax) (fun h => heq h.symm)
    have hr : 0 < rangeSizeOf l := by
      rw [rangeSizeOf]
      have h10 : (0 : ℚ) < 10 := by norm_num
      exact div_pos (sub_pos.mpr hlt) h10
    constructor
    · apply Int.le_floor.mpr
      push_cast
      exact div_nonneg (sub_nonneg.mpr hmin) (le_of_lt hr)
    · have hq : (f.priceTotal - minPriceOf l) / rangeSizeOf l ≤ 10 := by
        rw [div_le_iff₀ hr]
        have h1 : 10 * rangeSizeOf l = maxPriceOf l - minPriceOf l := by
          rw [rangeSizeOf]
          ring
        rw [h1]
        exact sub_le_sub_right hmax _
      have h2 : bucketIndexOf l f ≤ ⌊(10 : ℚ)⌋ := Int.floor_le_floor hq
      have h3 : (⌊(10 : ℚ)⌋ : ℤ) = 10 := by norm_num
      rw [h3] at h2
      exact h2

theorem bucketIndexOf_eq_zero (l : List FlightOffer) (f : FlightOffer)
    (hp : f.priceTotal = minPriceOf l) : bucketIndexOf l f = 0 := by
  rw [bucketIndexOf, hp, sub_self, zero_div, Int.floor_zero]

theorem bucketLabelOf_of_price_eq_min (fmt : ℤ → String) (l : List FlightOffer)
    (f : FlightOffer) (hp : f.priceTotal = minPriceOf l) :
    bucketLabelOf fmt l f = fmt (jsRound (minPriceOf l)) := by
  rw [bucketLabelOf, bucketIndexOf_eq_zero l f hp]
  norm_num

/-! ### Helper lemmas about the histogram accumulation -/

theorem getCount_nil (s : String) : getCount s [] = 0 := rfl

theorem getCount_cons (s k : String) (n : Nat) (rest : List (String × Nat)) :
    getCount s ((k, n) :: rest) = (if k = s then n else 0) + getCount s rest := by
  by_cases h : k = s
  · simp [getCount, List.filter_cons, h]
  · simp [getCount, List.filter_cons, h]

theorem getCount_upsertCount (s t : String) (xs : List (String × Nat)) :
    getCount s (upsertCount t xs) = getCount s xs + (if t = s then 1 else 0) := by
  induction xs with
  | nil =>
    by_cases h : t = s
    · simp [upsertCount, getCount_cons, getCount_nil, h]
    · simp [upsertCount, getCount_cons, getCount_nil, h]
  | cons p rest ih =>
    obtain ⟨k, n⟩ := p
    rw [upsertCount]
    by_cases hk : k = t
    · rw [if_pos hk, getCount_cons, getCount_cons]
      by_cases hs : k = s
      · rw [if_pos hs, if_pos hs, if_pos (hk ▸ hs)]
        omega
      · rw [if_neg hs, if_neg hs, if_neg (hk ▸ hs)]
        omega
    · rw [if_neg hk, getCount_cons, getCount_cons, ih]
      omega

theorem mem_keysOf_upsertCount (k t : String) (xs : List (String × Nat))
    (h : k ∈ keysOf (upsertCount t xs)) : k = t ∨ k ∈ keysOf xs := by
  induction xs with
  | nil =>
    rw [upsertCount, keysOf] at h
    simp at h
    exact Or.inl h
  | cons p rest ih =>
    obtain ⟨k2, n⟩ := p
    rw [upsertCount] at h
    by_cases hk : k2 = t
    · rw [if_pos hk] at h
      rw [keysOf] at h
      simp at h
      rcases h with rfl | h2
      · exact Or.inr (by simp [keysOf])
      · exact Or.inr (by simp [keysOf, h2])
    · rw [if_neg hk] at h
      rw [keysOf] at h
      simp at h
      rcases h with rfl | h2
      · exact Or.inr (by simp [keysOf])
      · rcases ih (by simpa [keysOf] using h2) with h3 | h3
        · exact Or.inl h3
        · exact Or.inr (by simp [keysOf] at h3 ⊢; exact Or.inr h3)

theorem nodup_keysOf_upsertCount (t : String) (xs : List (String × Nat))
    (h : (keysOf xs).Nodup) : (keysOf (upsertCount t xs)).Nodup := by
  induction xs with
  | nil => simp [upsertCount, keysOf]
  | cons p rest ih =>
    obtain ⟨k, n⟩ := p
    rw [keysOf, List.map_cons, List.nodup_cons] at h
    rw [upsertCount]
    by_cases hk : k = t
    · rw [if_pos hk, keysOf, List.map_cons, List.nodup_cons]
      exact ⟨h.1, h.2⟩
    · rw [if_neg hk, keysOf, List.map_cons, List.nodup_cons]
      refine ⟨?_, ih h.2⟩
      intro hmem
      rcases mem_keysOf_upsertCount k t rest (by simpa [keysOf] using hmem) with rfl | h2
      · exact hk rfl
      · exact h.1 (by simpa [keysOf] using h2)

theorem getCount_eq_zero_of_not_mem (s : String) (xs : List (String × Nat))
    (h : s ∉ keysOf xs) : getCount s xs = 0 := by
  induction xs with
  | nil => rfl
  | cons p rest ih =>
    obtain ⟨k, n⟩ := p
    have h1 : s ≠ k := by
      intro hs
      apply h
      rw [keysOf, List.map_cons, hs]
      exact List.mem_cons_self _ _
    have h2 : s ∉ keysOf rest := by
      intro hs
      apply h
      rw [keysOf, List.map_cons]
      exact List.mem_cons_of_mem _ (by rwa [keysOf] at hs)
    rw [getCount_cons, if_neg (fun hk => h1 hk.symm), ih h2]

theorem getCount_eq_of_mem (s : String) (n : Nat) (xs : List (String × Nat))
    (hmem : (s, n) ∈ xs) (hnd : (keysOf xs).Nodup) : getCount s xs = n := by
  induction xs with
  | nil => cases hmem
  | cons p rest ih =>
    obtain ⟨k, m⟩ := p
    rw [keysOf, List.map_cons, List.nodup_cons] at hnd
    rcases List.mem_cons.mp hmem with heq | hmem2
    · injection heq with hk hm
      subst hk
      subst hm
      rw [getCount_cons, if_pos rfl,
        getCount_eq_zero_of_not_mem s rest (by simpa [keysOf] using hnd.1)]
      omega
    · have hks : k ≠ s := by
        intro hk
        apply hnd.1
        have hmm : s ∈ List.map Prod.fst rest := List.mem_map_of_mem Prod.fst hmem2
        rw [hk]
        exact hmm
      rw [getCount_cons, if_neg hks, ih hmem2 hnd.2]
      omega

theorem getCount_foldl {γ : Type} (g : γ → String) (s : String) (L : List γ)
    (acc : List (String × Nat)) :
    getCount s (L.foldl (fun a x => upsertCount (g x) a) acc) =
      getCount s acc + (L.filter (fun x => decide (g x = s))).length := by
  induction L generalizing acc with
  | nil => simp
  | cons x t ih =>
    rw [List.foldl_cons, ih, getCount_upsertCount, List.filter_cons]
    by_cases h : g x = s
    · have hd : decide (g x = s) = true := by simp [h]
      rw [if_pos h, hd, if_pos rfl, List.length_cons]
      omega
    · have hd : decide (g x = s) = false := by simp [h]
      rw [if_neg h, hd, if_neg (by simp)]
      omega

theorem mem_keysOf_foldl {γ : Type} (g : γ → String) (k : String) (L : List γ)
    (acc : List (String × Nat))
    (h : k ∈ keysOf (L.foldl (fun a x => upsertCount (g x) a) acc)) :
    k ∈ keysOf acc ∨ ∃ x ∈ L, g x = k := by
  induction L generalizing acc with
  | nil => exact Or.inl h
  | cons x t ih =>
    rw [List.foldl_cons] at h
    rcases ih _ h with h2 | h2
    · rcases mem_keysOf_upsertCount k (g x) acc h2 with h3 | h3
      · exact Or.inr ⟨x, List.mem_cons_self x t, h3.symm⟩
      · exact Or.inl h3
    · obtain ⟨y, hy, hgy⟩ := h2
      exact Or.inr ⟨y, List.mem_cons_of_mem x hy, hgy⟩

theorem nodup_keysOf_foldl {γ : Type} (g : γ → String) (L : List γ)
    (acc : List (String × Nat)) (h : (keysOf acc).Nodup) :
    (keysOf (L.foldl (fun a x => upsertCount (g x) a) acc)).Nodup := by
  induction L generalizing acc with
  | nil => exact h
  | cons x t ih =>
    rw [List.foldl_cons]
    exact ih _ (nodup_keysOf_upsertCount (g x) acc h)

theorem foldl_upsert_const {γ : Type} (g : γ → String) (s0 : String) (L : List γ)
    (hall : ∀ x ∈ L, g x = s0) (k : Nat) :
    (L.foldl (fun a x => upsertCount (g x) a) [(s0, k)]).length = 1 := by
  induction L generalizing k with
  | nil => rfl
  | cons x t ih =>
    rw [List.foldl_cons, hall x (List.mem_cons_self x t)]
    have hu : upsertCount s0 [(s0, k)] = [(s0, k + 1)] := by simp [upsertCount]
    rw [hu]
    exact ih (fun y hy => hall y (List.mem_cons_of_mem x hy)) (k + 1)

/-! ### Claim theorems -/

/-- C1: when the payment widget reports user-initiated cancellation during
the booking flow, the already-created booking record is left exactly as
created — booking status `pending`, payment status `pending`, no payment
reference — and the payment step surfaces the error `"Payment cancelled"`
instead of updating the booking. -/
theorem handlePayment_widget_cancelled (ps : List Passenger) (dep now : Nat) (bid : String) :
    handlePayment ps dep now bid PaymentOutcome.widgetClosed =
      { booking := createBookingRec ps dep now, error := some ("Payment cancelled") } ∧
    (handlePayment ps dep now bid PaymentOutcome.widgetClosed).booking.status =
      BookingStatus.pending ∧
    (handlePayment ps dep now bid PaymentOutcome.widgetClosed).booking.paymentStatus =
      PaymentStatus.pending ∧
    (handlePayment ps dep now bid PaymentOutcome.widgetClosed).booking.paymentReference = none :=
  ⟨rfl, rfl, rfl, rfl⟩

/-- C2 counterexample: for a confirmed booking whose departure instant
equals the current instant (not in the future), the cancel action is
nevertheless permitted, so "permitted only when the departure date is in
the future" fails as stated. -/
theorem cancel_guard_boundary_counterexample :
    canCancel bookingAtBoundary 100 = true ∧
      canCancelSpec bookingAtBoundary 100 = false ∧
      ¬ (100 < bookingAtBoundary.departureDate) := by
  refine ⟨by decide, by decide, by decide⟩

/-- C2 amended: the post-confirmation cancel action is permitted exactly
when the booking status is `confirmed` and the departure instant is not
earlier than the current instant; for a confirmed booking with a strictly
past departure it is refused and the record is unchanged; when permitted,
it sets the status to `cancelled` and stamps the update time. -/
theorem cancel_guard_spec (b : BookingRec) (now : Nat) :
    (canCancel b now = true ↔ (b.status = BookingStatus.confirmed ∧ now ≤ b.departureDate)) ∧
    (b.status = BookingStatus.confirmed → b.departureDate < now → tryCancel b now = b) ∧
    (canCancel b now = true →
      (tryCancel b now).status = BookingStatus.cancelled ∧ (tryCancel b now).updatedAt = now) := by
  refine ⟨?_, ?_, ?_⟩
  · simp [canCancel, isPastFlight, Nat.not_lt]
  · intro h1 h2
    rw [tryCancel, if_neg]
    simp [canCancel, isPastFlight, h2]
  · intro h
    rw [tryCancel, if_pos h]
    exact ⟨rfl, rfl⟩

/-- C2 witness: the amended cancel-guard theorem applied to a concrete
confirmed booking with a future departure. -/
theorem cancel_guard_spec_witness :
    (tryCancel bookingFuture 5).status = BookingStatus.cancelled ∧
      (tryCancel bookingFuture 5).updatedAt = 5 :=
  (cancel_guard_spec bookingFuture 5).2.2 (by decide)

/-- C3: the passenger sequence built from the search counts has length
adults + children + infants, is ordered all adults first, then children,
then infants, is stored unchanged on the created booking record, and the
adults=2, children=1 search yields types [adult, adult, child]. -/
theorem booking_passengers_from_search (adults children infants dep now : Nat) :
    (initialPassengers adults children infants).length = adults + children + infants ∧
    (initialPassengers adults children infants).map Passenger.type =
      List.replicate adults PassengerType.adult ++
        List.replicate children PassengerType.child ++
          List.replicate infants PassengerType.infant ∧
    (createBookingRec (initialPassengers adults children infants) dep now).passengers =
      initialPassengers adults children infants ∧
    (initialPassengers 2 1 0).map Passenger.type =
      [PassengerType.adult, PassengerType.adult, PassengerType.child] := by
  refine ⟨?_, ?_, rfl, rfl⟩
  · simp [initialPassengers]
    omega
  · simp [initialPassengers, emptyPassenger, List.map_replicate]

/-- C4: the price-ceiling filter keeps exactly the offers whose total
price is at most the ceiling (the boundary is inclusive and no offer at or
below the ceiling is dropped). -/
theorem price_ceiling_filter_exact (P : ℚ) (l : List FlightOffer) (f : FlightOffer) :
    f ∈ applyPriceFilter (some P) l ↔ f ∈ l ∧ f.priceTotal ≤ P := by
  simp [applyPriceFilter, List.mem_filter]

/-- C5: with a nonempty accepted-stops set every kept offer has outbound
stop count is a member of the set; an empty set leaves the collection
unfiltered; and the stop count of a leg with N segments is N − 1, in
particular 0 for a single-segment leg. -/
theorem stops_filter_spec (S : List ℤ) (l : List FlightOffer) (f g : FlightOffer)
    (it : Itinerary) (rest : List Itinerary) :
    (S ≠ [] → f ∈ applyStopsFilter S l → getNumberOfStops f ∈ S) ∧
    applyStopsFilter [] l = l ∧
    (g.itineraries = it :: rest → getNumberOfStops g = (it.segments.length : ℤ) - 1) ∧
    (g.itineraries = it :: rest → it.segments.length = 1 → getNumberOfStops g = 0) := by
  refine ⟨?_, ?_, ?_, ?_⟩
  · intro hS hf
    rw [applyStopsFilter, if_neg hS] at hf
    exact of_decide_eq_true (List.mem_filter.mp hf).2
  · rw [applyStopsFilter, if_pos rfl]
  · intro hit
    rw [getNumberOfStops, hit]
    simp [List.headI]
  · intro hit hlen
    rw [getNumberOfStops, hit]
    simp [List.headI, hlen]

/-- C5 witness: the stop-filter theorem applied to a concrete offer with a
two-segment outbound leg and the accepted-stops set containing 1. -/
theorem stops_filter_spec_witness :
    getNumberOfStops offerA ∈ [(1 : ℤ)] ∧
      applyStopsFilter [] [offerA] = [offerA] ∧
      getNumberOfStops offerA = (itinTwoSeg.segments.length : ℤ) - 1 :=
  ⟨(stops_filter_spec [(1 : ℤ)] [offerA] offerA offerA itinTwoSeg []).1 (by decide)
      (by decide),
   (stops_filter_spec [(1 : ℤ)] [offerA] offerA offerA itinTwoSeg []).2.1,
   (stops_filter_spec [(1 : ℤ)] [offerA] offerA offerA itinTwoSeg []).2.2.1 rfl⟩

/-- C6: sorting by the price key orders offers ascending by numeric total
price and sorting by the duration key orders them ascending by the parsed
outbound duration in minutes; both sorts permute the input and are stable:
the subsequence of offers sharing any key value is preserved. -/
theorem sort_spec (l : List FlightOffer) (v : ℚ) (w : Nat) :
    List.Pairwise (fun a b => priceKey a ≤ priceKey b) (sortFlights SortKey.price l) ∧
    (sortFlights SortKey.price l).Perm l ∧
    (sortFlights SortKey.price l).filter (fun f => decide (priceKey f = v)) =
      l.filter (fun f => decide (priceKey f = v)) ∧
    List.Pairwise (fun a b => durationKey a ≤ durationKey b) (sortFlights SortKey.duration l) ∧
    (sortFlights SortKey.duration l).Perm l ∧
    (sortFlights SortKey.duration l).filter (fun f => decide (durationKey f = w)) =
      l.filter (fun f => decide (durationKey f = w)) :=
  ⟨sortByKey_pairwise priceKey l, sortByKey_perm priceKey l, sortByKey_filter_key priceKey l v,
   sortByKey_pairwise durationKey l, sortByKey_perm durationKey l,
   sortByKey_filter_key durationKey l w⟩

/-- C7 counterexample: with offers priced 0 and 10 the bucket width is 1
and the offer at the maximum price is counted in bucket index 10 — an
eleventh bucket — so the truncation formula does not place every offer
within ten buckets (indices 0 through 9). -/
theorem priceGraph_eleventh_bucket_counterexample :
    bucketIndexOf [offerLow, offerHigh] offerHigh = 10 ∧
      ¬ (bucketIndexOf [offerLow, offerHigh] offerHigh < 10) := by
  have h1 : minPriceOf [offerLow, offerHigh] = 0 := by
    show min offerLow.priceTotal offerHigh.priceTotal = 0
    norm_num [offerLow, offerHigh, min_def]
  have h2 : maxPriceOf [offerLow, offerHigh] = 10 := by
    show max offerLow.priceTotal offerHigh.priceTotal = 10
    norm_num [offerLow, offerHigh, max_def]
  have h3 : rangeSizeOf [offerLow, offerHigh] = 1 := by
    rw [rangeSizeOf, h1, h2]
    norm_num
  have h4 : bucketIndexOf [offerLow, offerHigh] offerHigh = 10 := by
    rw [bucketIndexOf, h1, h3]
    norm_num [offerHigh]
  exact ⟨h4, by rw [h4]; norm_num⟩

/-- C7 amended: the histogram is empty on zero offers; every offer falls
in a bucket index obtained by truncating (price − min) / bucketWidth,
which lies between 0 and 10 — ten equal-width buckets between the
observed minimum and maximum plus an eleventh holding the maximum price;
each histogram entry is keyed by the formatted rounded lower bound of its
bucket and counts exactly the offers labelled with it; and when all
prices are equal the histogram has a single bucket. -/
theorem priceGraphData_spec (fmt : ℤ → String) (l : List FlightOffer) (s : String) (n : Nat) :
    priceGraphData fmt ([] : List FlightOffer) = [] ∧
    (∀ f ∈ l, 0 ≤ bucketIndexOf l f ∧ bucketIndexOf l f ≤ 10) ∧
    ((s, n) ∈ priceRangesOf fmt l →
      n = (l.filter (fun f => decide (bucketLabelOf fmt l f = s))).length ∧
        ∃ f ∈ l, bucketLabelOf fmt l f = s) ∧
    (∀ gp ∈ priceGraphData fmt l, (gp.range, gp.count) ∈ priceRangesOf fmt l) ∧
    ((∀ f ∈ l, f.priceTotal = minPriceOf l) → l ≠ [] → (priceGraphData fmt l).length = 1) := by
  refine ⟨rfl, fun f hf => bucketIndexOf_bounds l f hf, ?_, ?_, ?_⟩
  · intro hmem
    have hnd : (keysOf (priceRangesOf fmt l)).Nodup := by
      rw [priceRangesOf]
      exact nodup_keysOf_foldl (bucketLabelOf fmt l) l [] (by simp [keysOf])
    have hcnt : getCount s (priceRangesOf fmt l) = n := getCount_eq_of_mem s n _ hmem hnd
    have hlen : getCount s (priceRangesOf fmt l) =
        (l.filter (fun f => decide (bucketLabelOf fmt l f = s))).length := by
      rw [priceRangesOf, getCount_foldl, getCount_nil]
      omega
    constructor
    · rw [← hcnt, hlen]
    · have hk : s ∈ keysOf (priceRangesOf fmt l) := List.mem_map_of_mem Prod.fst hmem
      rcases mem_keysOf_foldl (bucketLabelOf fmt l) s l []
          (by rwa [priceRangesOf] at hk) with h | h
      · simp [keysOf] at h
      · exact h
  · intro gp hgp
    rw [priceGraphData] at hgp
    by_cases hl : l.length = 0
    · rw [if_pos hl] at hgp
      cases hgp
    · rw [if_neg hl] at hgp
      have h2 := (sortByKey_perm GraphPoint.price _).subset hgp
      obtain ⟨p, hp, hpe⟩ := List.mem_map.mp h2
      rw [← hpe]
      exact hp
  · intro hall hne
    cases l with
    | nil => exact absurd rfl hne
    | cons f t =>
      rw [priceGraphData, if_neg (by simp)]
      rw [(sortByKey_perm GraphPoint.price _).length_eq, List.length_map]
      have hlab : ∀ x ∈ f :: t,
          bucketLabelOf fmt (f :: t) x = fmt (jsRound (minPriceOf (f :: t))) :=
        fun x hx => bucketLabelOf_of_price_eq_min fmt _ x (hall x hx)
      rw [priceRangesOf, List.foldl_cons, hlab f (List.mem_cons_self f t)]
      exact foldl_upsert_const _ _ t (fun y hy => hlab y (List.mem_cons_of_mem f hy)) 1

/-- C7 witness: the amended histogram theorem applied to a concrete
two-offer collection with equal prices yields a single bucket. -/
theorem priceGraphData_spec_witness :
    (priceGraphData fmtDec [offerLow, offerLow]).length = 1 :=
  (priceGraphData_spec fmtDec [offerLow, offerLow] ("") 0).2.2.2.2
    (by
      have h0 : minPriceOf [offerLow, offerLow] = 0 := by
        show min offerLow.priceTotal offerLow.priceTotal = 0
        norm_num [offerLow, min_def]
      intro f hf
      rw [h0]
      rcases List.mem_cons.mp hf with rfl | hf2
      · rfl
      · rcases List.mem_cons.mp hf2 with rfl | h3
        · rfl
        · cases h3)
    (by simp)

/-- C8 counterexample: a rate table can hold a present rate equal to 0;
the guard treats it as absent (JavaScript truthiness), so the function
returns the amount unchanged rather than the documented quotient formula,
refuting "returns (amount / rate[from]) * rate[selected] whenever both
rates are present". -/
theorem convertPrice_zero_rate_counterexample :
    zeroRateTable ("AAA") = some 0 ∧ zeroRateTable ("USD") = some 1 ∧
      convertPrice zeroRateTable ("USD") 5 ("AAA") ≠ 5 / 0 * 1 := by
  have h : convertPrice zeroRateTable ("USD") 5 ("AAA") = 5 := by
    rw [show convertPrice zeroRateTable ("USD") 5 ("AAA") =
        (if (0 : ℚ) = 0 ∨ (1 : ℚ) = 0 then (5 : ℚ) else 5 / 0 * 1) from rfl,
      if_pos (Or.inl rfl)]
  refine ⟨rfl, rfl, ?_⟩
  rw [h]
  norm_num

/-- C8 amended: convert(amount, from) returns (amount / rate[from]) *
rate[selected] when both rates are present and nonzero, and returns the
input amount unchanged, surfacing no error, when either rate is absent or
equal to zero. -/
theorem convertPrice_spec (rates : String → Option ℚ) (sel src : String) (price rf rs : ℚ) :
    (rates src = some rf → rf ≠ 0 → rates sel = some rs → rs ≠ 0 →
      convertPrice rates sel price src = price / rf * rs) ∧
    (rates src = none → convertPrice rates sel price src = price) ∧
    (rates sel = none → convertPrice rates sel price src = price) ∧
    (rates src = some 0 → convertPrice rates sel price src = price) ∧
    (rates sel = some 0 → convertPrice rates sel price src = price) := by
  refine ⟨?_, ?_, ?_, ?_, ?_⟩
  · intro h1 h2 h3 h4
    simp only [convertPrice, h1, h3]
    rw [if_neg]
    push_neg
    exact ⟨h2, h4⟩
  · intro h1
    cases h2 : rates sel with
    | none => simp only [convertPrice, h1, h2]
    | some r => simp only [convertPrice, h1, h2]
  · intro h1
    cases h2 : rates src with
    | none => simp only [convertPrice, h1, h2]
    | some r => simp only [convertPrice, h1, h2]
  · intro h1
    cases h2 : rates sel with
    | none => simp only [convertPrice, h1, h2]
    | some r =>
      simp only [convertPrice, h1, h2]
      simp
  · intro h1
    cases h2 : rates src with
    | none => simp only [convertPrice, h1, h2]
    | some r =>
      simp only [convertPrice, h1, h2]
      simp

/-- Helper fact for witnesses: the embedded EUR rate is nonzero. -/
theorem rate_EUR_ne_zero : (92 / 100 : ℚ) ≠ 0 := by norm_num

/-- Helper fact for witnesses: the embedded USD rate is nonzero. -/
theorem rate_USD_ne_zero : (1 : ℚ) ≠ 0 := one_ne_zero

/-- C8 witness: the amended conversion theorem applied to the embedded
fallback table, once with both rates present (EUR to USD) and once with an
absent source rate. -/
theorem convertPrice_spec_witness :
    convertPrice fallbackRates ("USD") 46 ("EUR") = 46 / (92 / 100) * 1 ∧
      convertPrice fallbackRates ("USD") 7 ("ZZZ") = 7 :=
  ⟨(convertPrice_spec fallbackRates ("USD") ("EUR") 46 (92 / 100) 1).1 rfl
      rate_EUR_ne_zero rfl rate_USD_ne_zero,
   (convertPrice_spec fallbackRates ("USD") ("ZZZ") 7 0 0).2.1 rfl⟩

/-- Helper: every rate present in the embedded fallback table is
nonzero. -/
theorem fallbackRates_ne_zero (c : String) (r : ℚ) (h : fallbackRates c = some r) :
    r ≠ 0 := by
  rw [fallbackRates] at h
  split_ifs at h <;> injection h with h2 <;> rw [← h2] <;> norm_num

/-- C9: converting an amount from currency A with B selected and then
converting the result from B with A selected reproduces the amount
exactly, over exact rational arithmetic, whenever both rates are present
in the static fallback rate table. -/
theorem convertPrice_roundtrip (x : ℚ) (A B : String) (rA rB : ℚ)
    (hA : fallbackRates A = some rA) (hB : fallbackRates B = some rB) :
    convertPrice fallbackRates A (convertPrice fallbackRates B x A) B = x := by
  have hA0 : rA ≠ 0 := fallbackRates_ne_zero A rA hA
  have hB0 : rB ≠ 0 := fallbackRates_ne_zero B rB hB
  have hc1 : ¬ (rA = 0 ∨ rB = 0) := by
    push_neg
    exact ⟨hA0, hB0⟩
  have hc2 : ¬ (rB = 0 ∨ rA = 0) := by
    push_neg
    exact ⟨hB0, hA0⟩
  have h1 : convertPrice fallbackRates B x A = x / rA * rB := by
    simp only [convertPrice, hA, hB]
    rw [if_neg hc1]
  rw [h1]
  simp only [convertPrice, hA, hB]
  rw [if_neg hc2]
  field_simp
  ring

/-- C9 witness: the round-trip theorem applied to EUR and USD with the
amount 3. -/
theorem convertPrice_roundtrip_witness :
    convertPrice fallbackRates ("EUR") (convertPrice fallbackRates ("USD") 3 ("EUR")) ("USD") = 3 :=
  convertPrice_roundtrip 3 ("EUR") ("USD") (92 / 100) 1 rfl rfl

/-- C10: after `updateBookingPayment` the booking status is `confirmed`
exactly when the written payment status is `completed`; a `failed` payment
status sets the booking status to `pending` (not `cancelled`), and the
update timestamp is re-stamped in both cases. -/
theorem updateBookingPayment_reconciles (b : BookingRec) (p : PaymentUpdate) (ref : String)
    (now : Nat) :
    ((updateBookingPayment b p ref now).status = BookingStatus.confirmed ↔
      (updateBookingPayment b p ref now).paymentStatus = PaymentStatus.completed) ∧
    (updateBookingPayment b PaymentUpdate.failed ref now).status = BookingStatus.pending ∧
    (updateBookingPayment b PaymentUpdate.failed ref now).status ≠ BookingStatus.cancelled ∧
    (updateBookingPayment b p ref now).updatedAt = now := by
  cases p <;> simp [updateBookingPayment, PaymentUpdate.toStatus]

end SamFlights
